import Mathlib

/-!
Verification development for the tornado-probability pipeline
(`scripts/process_rap.py` and `scripts/convert_borders_to_lcc.py`).

The geometric and list-processing parts of the scripts are embedded over `ℚ`
(exact rational arithmetic) so that predicates are decidable; the probability
model, which uses the exponential function, is embedded over `ℝ`.
-/

namespace Tornado

/-! ## Probability model (`process_rap.py`, CONFIG and PROB sections)

`INTERCEPT = -14`, `COEFFS = {CAPE, CIN, HLCY}`,
`linear = INTERCEPT + COEFFS["CAPE"]*cape + COEFFS["CIN"]*cin + COEFFS["HLCY"]*hlcy`,
`prob = 1 / (1 + np.exp(-linear))`. -/

def INTERCEPT : ℝ := -14

def COEFFS_CAPE : ℝ := 2.88592370e-03

def COEFFS_CIN : ℝ := 2.38728498e-05

def COEFFS_HLCY : ℝ := 8.85192696e-03

/-- The logistic function `z ↦ 1 / (1 + exp (-z))`, the form used on line
`prob = 1 / (1 + np.exp(-linear))`. -/
noncomputable def sigmoid (z : ℝ) : ℝ := 1 / (1 + Real.exp (-z))

/-- The linear argument `INTERCEPT + Σ coefficient_k * field_k` of the logistic
regression, exactly as computed in `process_rap.py`. -/
def linear (cape cin hlcy : ℝ) : ℝ :=
  INTERCEPT + COEFFS_CAPE * cape + COEFFS_CIN * cin + COEFFS_HLCY * hlcy

/-- The per-cell probability as computed by the source:
`prob = 1 / (1 + np.exp(-linear))`, with no clamping of `linear`. -/
noncomputable def prob (cape cin hlcy : ℝ) : ℝ := sigmoid (linear cape cin hlcy)

/-- Clamping of a real to the interval `[-60, 60]`. -/
def clamp60 (z : ℝ) : ℝ := max (-60) (min 60 z)

/-- Modelled from the spec: the spec requires the linear argument to be clamped
to a safe range such as `[-60, 60]` before exponentiation.  The repository's
`prob` computation has no such clamp; this definition follows the spec's words
so the two can be compared. -/
noncomputable def prob_spec_clamped (cape cin hlcy : ℝ) : ℝ :=
  sigmoid (clamp60 (linear cape cin hlcy))

/-- `np.nan_to_num` on a scalar: a possibly-NaN value (modelled as `Option ℝ`,
with `none` standing for NaN) is replaced by `0`. -/
def nan_to_num (v : Option ℝ) : ℝ := v.getD 0

/-- The probability computed from raw (possibly NaN) field values, as the
source does: `cape = np.nan_to_num(cape_msg.values)` etc., then `prob`. -/
noncomputable def probFromRaw (cape cin hlcy : Option ℝ) : ℝ :=
  prob (nan_to_num cape) (nan_to_num cin) (nan_to_num hlcy)

/-! ## Upstream availability gate (`process_rap.py`, CHECK FILE EXISTS section) -/

/-- `url_exists`: `requests.head(url)` is modelled by passing the observed HTTP
status code; the function returns whether it equals 200. -/
def url_exists (status_code : ℕ) : Bool := status_code == 200

/-- Result of one run of the `process_rap.py` script: the process exit code and
the list of `(path, contents)` pairs written.  The script checks
`url_exists(RAP_URL)`; when false it prints and calls `exit(0)` before any
download or write; otherwise it runs the rest of the pipeline and writes the
output JSON once at the end, then falls off the end of the script (exit 0). -/
def OUTPUT_JSON : String := "map/data/tornado_prob_lcc.json"

def runScript {α : Type} (status_code : ℕ) (pipeline : Unit → α) :
    ℕ × List (String × α) :=
  if url_exists status_code then (0, [(OUTPUT_JSON, pipeline ())])
  else (0, [])

/-! ## Grid cells (`process_rap.py`, FILTER GRID CELLS section)

The double loop over `i in range(rows)`, `j in range(cols)` computes for each
grid point `x = x_vals[i,j]`, `y = y_vals[i,j]`,
`dx = x_vals[i,j+1] - x if j < cols-1 else x - x_vals[i,j-1]` (then `abs`),
`dy` symmetrically, builds `box(x, y, x+dx, y+dy)` and keeps the cell when
`prepared_conus.contains(cell.centroid)`; the centroid of that box is
`(x + dx/2, y + dy/2)`.  Coordinates are embedded over `ℚ`; the point-in-CONUS
test (a shapely library call) is a parameter `keep` of the loop. -/

structure Feature where
  x : ℚ
  y : ℚ
  dx : ℚ
  dy : ℚ
  prob : ℚ
deriving DecidableEq

/-- The feature record the loop body builds for grid point `(i, j)`. -/
def featureAt (rows cols : ℕ) (xv yv pr : ℕ → ℕ → ℚ) (i j : ℕ) : Feature :=
  let x := xv i j
  let y := yv i j
  let dx := if j < cols - 1 then xv i (j + 1) - x else x - xv i (j - 1)
  let dy := if i < rows - 1 then yv (i + 1) j - y else y - yv (i - 1) j
  { x := x, y := y, dx := |dx|, dy := |dy|, prob := pr i j }

/-- The full filtering loop: every grid point is visited in row-major order and
its feature is emitted when the centroid of its cell box passes `keep`. -/
def processCells (rows cols : ℕ) (xv yv pr : ℕ → ℕ → ℚ) (keep : ℚ → ℚ → Bool) :
    List Feature :=
  (List.range rows).flatMap fun i =>
    (List.range cols).filterMap fun j =>
      let f := featureAt rows cols xv yv pr i j
      if keep (f.x + f.dx / 2) (f.y + f.dy / 2) then some f else none

/-- All pairs of horizontally adjacent projected x coordinates within a row are
distinct (checked over the whole grid). -/
def adjacentXDistinct (rows cols : ℕ) (xv : ℕ → ℕ → ℚ) : Bool :=
  (List.range rows).all fun i =>
    (List.range (cols - 1)).all fun j => xv i (j + 1) != xv i j

/-- All pairs of vertically adjacent projected y coordinates within a column
are distinct (checked over the whole grid). -/
def adjacentYDistinct (rows cols : ℕ) (yv : ℕ → ℕ → ℚ) : Bool :=
  (List.range cols).all fun j =>
    (List.range (rows - 1)).all fun i => yv (i + 1) j != yv i j

/-! ## Region membership policies (spec section 4.3)

`process_rap.py` keeps a cell when `prepared_conus.contains(cell.centroid)`
(strict containment: shapely `contains` holds only for points of the region's
interior), while `convert_borders_to_lcc.py` keeps a cell when
`poly.intersects(us_geom)` (inclusive: shapely `intersects` also holds when
only boundaries touch).  For a square (axis-aligned rectangular) test region
both tests are decidable over `ℚ`. -/

structure Box where
  x1 : ℚ
  y1 : ℚ
  x2 : ℚ
  y2 : ℚ
deriving DecidableEq

/-- Shapely `region.contains(point)` for an axis-aligned region: the point lies
in the interior of the region (strict inequalities). -/
def containsPt (s : Box) (px py : ℚ) : Bool :=
  decide (s.x1 < px) && decide (px < s.x2) && decide (s.y1 < py) && decide (py < s.y2)

/-- Shapely `box.intersects(region)` for axis-aligned boxes: the closed boxes
share at least one point (boundary touching counts). -/
def boxIntersects (s : Box) (b : Box) : Bool :=
  decide (s.x1 ≤ b.x2) && decide (b.x1 ≤ s.x2) && decide (s.y1 ≤ b.y2) && decide (b.y1 ≤ s.y2)

/-- The cell box `box(x, y, x + dx, y + dy)` of a feature. -/
def featureBox (f : Feature) : Box :=
  ⟨f.x, f.y, f.x + f.dx, f.y + f.dy⟩

/-- Strict-containment policy: keep a cell iff its centroid lies strictly
inside the region. -/
def strictPolicy (s : Box) (f : Feature) : Bool :=
  containsPt s (f.x + f.dx / 2) (f.y + f.dy / 2)

/-- Intersection policy: keep a cell iff its bounding box intersects the
region. -/
def intersectPolicy (s : Box) (f : Feature) : Bool :=
  boxIntersects s (featureBox f)

/-- The set (list) of cells a policy keeps. -/
def keptCells (policy : Box → Feature → Bool) (s : Box) (cells : List Feature) :
    List Feature :=
  cells.filter (policy s)

/-- A regular grid of cells: cell `(i, j)` has corner
`(x0 + j*d, y0 + i*d)` and extents `d × d`. -/
def regularGrid (x0 y0 d : ℚ) (rows cols : ℕ) : List Feature :=
  (List.range rows).flatMap fun i =>
    (List.range cols).map fun j =>
      { x := x0 + j * d, y := y0 + i * d, dx := d, dy := d, prob := 0 }

/-- The square test region of spec section 8: 38–40 °N, 97–95 °W. -/
def specSquare : Box := ⟨-97, 38, -95, 40⟩

/-- The 3×3 one-degree test grid of spec section 8: grid points at
38–40 °N, 97–95 °W with ±0.5° cell boxes, written with the cell corner at
(center − 0.5, center − 0.5). -/
def specGrid : List Feature := regularGrid (-97.5) 37.5 1 3 3

/-- A 2×2 regular grid around the origin, used to exhibit a square region for
which both policies keep exactly the same cells. -/
def tinyGrid : List Feature := regularGrid 0 0 1 2 2

/-- A square region so large that it strictly contains every cell of
`tinyGrid`. -/
def hugeSquare : Box := ⟨-100, -100, 100, 100⟩

/-- A concrete projected-x grid whose value at `(i, j)` is `j`. -/
def colIndexQ : ℕ → ℕ → ℚ := fun _ j => j

/-- A concrete projected-y grid whose value at `(i, j)` is `i`. -/
def rowIndexQ : ℕ → ℕ → ℚ := fun i _ => i

/-- A concrete field grid that is identically zero. -/
def zeroField : ℕ → ℕ → ℚ := fun _ _ => 0

/-- A region test that keeps every cell. -/
def keepAll : ℚ → ℚ → Bool := fun _ _ => true

/-! ## Cell records (`convert_borders_to_lcc.py`)

A cell is a JSON record with keys `x`, `y`, and optionally `dx`, `dy` (the
script reads them with `c.get("dx", 13545)`), a probability, and optionally a
`highlight` flag (absent until `highlight_dallas` sets it).  Optional keys are
modelled with `Option`; `none` stands for an absent key. -/

structure Cell where
  x : ℚ
  y : ℚ
  dx : Option ℚ
  dy : Option ℚ
  prob : ℚ
  highlight : Option Bool
deriving DecidableEq

/-- The box `box(c["x"], c["y"], c["x"] + dx, c["y"] + dy)` built by
`filter_cells`, with `dx = c.get("dx", 13545)` and `dy = c.get("dy", 13545)`. -/
def cellBox (c : Cell) : Box :=
  ⟨c.x, c.y, c.x + (c.dx.getD 13545), c.y + (c.dy.getD 13545)⟩

/-- `filter_cells(cells, us_geom)`: starts from `filtered = []` and appends
each cell whose box satisfies `poly.intersects(us_geom)`.  The intersection
test itself is a shapely (GEOS) library call, so it is a parameter; the
geometry may be of any type `G`. -/
def filter_cells {G : Type} (intersects : Box → G → Bool) (cells : List Cell)
    (us_geom : G) : List Cell :=
  cells.foldl
    (fun filtered c =>
      if intersects (cellBox c) us_geom then filtered ++ [c] else filtered)
    []

/-! ## Region-ring validity (spec sections 4.3 and 7)

The spec demands that a geometrically invalid region polygon
(self-intersecting rings) make the filter fail fast with a `GeometryError`.
The scripts contain no such check and no such error type; the definitions
below give the spec's words a precise form so they can be compared with the
code's behaviour.  A ring is a closed vertex list; it is self-intersecting
when two of its edges cross properly. -/

def RingGeom : Type := List (ℚ × ℚ)

/-- Twice the signed area of the triangle `p q r`; its sign gives the
orientation of the triple. -/
def orient (p q r : ℚ × ℚ) : ℚ :=
  (q.1 - p.1) * (r.2 - p.2) - (q.2 - p.2) * (r.1 - p.1)

/-- Two segments cross properly: each one's endpoints lie strictly on opposite
sides of the other's supporting line. -/
def properCross (e1 e2 : (ℚ × ℚ) × (ℚ × ℚ)) : Bool :=
  decide (orient e1.1 e1.2 e2.1 * orient e1.1 e1.2 e2.2 < 0) &&
  decide (orient e2.1 e2.2 e1.1 * orient e2.1 e2.2 e1.2 < 0)

/-- The edges of a closed ring: each vertex paired with its cyclic successor. -/
def ringEdges (ring : RingGeom) : List ((ℚ × ℚ) × (ℚ × ℚ)) :=
  List.zip ring (List.rotate ring 1)

/-- A ring is self-intersecting when some two of its edges cross properly. -/
def ringSelfIntersects (ring : RingGeom) : Bool :=
  (ringEdges ring).any fun e1 => (ringEdges ring).any fun e2 => properCross e1 e2

inductive GeometryError where
  | invalidGeometry
deriving DecidableEq

/-- Modelled from the spec: "if the input region polygon is geometrically
invalid (self-intersecting rings), the filter fails fast with a GeometryError
rather than producing undefined results".  No corresponding check exists in
the repository; this definition follows the spec's words so the two can be
compared. -/
def filter_cells_spec (intersects : Box → RingGeom → Bool) (cells : List Cell)
    (ring : RingGeom) : Except GeometryError (List Cell) :=
  if ringSelfIntersects ring then Except.error GeometryError.invalidGeometry
  else Except.ok (cells.filter fun c => intersects (cellBox c) ring)

/-- The bowtie ring (0,0)-(2,2)-(2,0)-(0,2): its first and third edges cross
at (1,1), so it is a self-intersecting ring. -/
def bowtieRing : RingGeom := [(0, 0), (2, 2), (2, 0), (0, 2)]

/-- A geometry predicate that reports every box as intersecting. -/
def alwaysIntersects : Box → RingGeom → Bool := fun _ _ => true

/-- A plain cell at the origin with no `dx`, `dy` or `highlight` keys. -/
def sampleCell : Cell := ⟨0, 0, none, none, 0, none⟩

/-! ## `highlight_dallas` (`convert_borders_to_lcc.py`)

The script projects Dallas into the planar CRS (a pyproj call, so the
projected point `(px, py)` is a parameter here), then scans the cells keeping
the first strict minimizer of the squared center distance, starting from
`closest = None`, `closest_dist = 1e30`; afterwards it sets
`c["highlight"] = False` on every cell and `True` on the winner, if any. -/

/-- The x coordinate `cx = c["x"] + dx / 2` of a cell's box center. -/
def cellCx (c : Cell) : ℚ := c.x + (c.dx.getD 13545) / 2

/-- The y coordinate `cy = c["y"] + dy / 2` of a cell's box center. -/
def cellCy (c : Cell) : ℚ := c.y + (c.dy.getD 13545) / 2

/-- The squared planar distance `(cx - x)**2 + (cy - y)**2` from a cell's box
center to the projected Dallas point. -/
def sqDist (c : Cell) (px py : ℚ) : ℚ :=
  (cellCx c - px) ^ 2 + (cellCy c - py) ^ 2

/-- One step of the closest-cell scan: take the current cell (with its index)
iff its squared distance is strictly below the best so far. -/
def closestStep (px py : ℚ) (acc : Option ℕ × ℚ) (ic : ℕ × Cell) : Option ℕ × ℚ :=
  if sqDist ic.2 px py < acc.2 then (some ic.1, sqDist ic.2 px py) else acc

/-- The closest-cell scan over all cells, starting from
`closest = None`, `closest_dist = 1e30`. -/
def findClosest (px py : ℚ) (cells : List Cell) : Option ℕ × ℚ :=
  cells.enum.foldl (closestStep px py) (none, 10 ^ 30)

/-- Setting `highlight = True` on the cell at a given position. -/
def setHighlightTrue : ℕ → List Cell → List Cell
  | _, [] => []
  | 0, c :: rest => { c with highlight := some true } :: rest
  | n + 1, c :: rest => c :: setHighlightTrue n rest

/-- `highlight_dallas(cells, rap_crs)` with the projected Dallas point passed
in: every cell gets `highlight = False`, then the winner of the scan (when one
exists) gets `highlight = True`. -/
def highlight_dallas (px py : ℚ) (cells : List Cell) : List Cell :=
  let allFalse := cells.map fun c => { c with highlight := some false }
  match (findClosest px py cells).1 with
  | none => allFalse
  | some i => setHighlightTrue i allFalse

/-- A cell so far from the origin that its squared center distance exceeds the
scan's initial threshold `1e30`. -/
def farCell : Cell := ⟨10 ^ 20, 0, none, none, 0, none⟩

/-! ## Lambert Conformal Conic projection (spec sections 4.1 and 8, glossary)

`process_rap.py` builds
`proj_lcc = Proj(proj="lcc", lat_1, lat_2, lat_0, lon_0, a=6371229, b=6371229)`
and applies it in the forward direction; the projection formulas themselves
live in the pyproj/PROJ library, not in the repository.  Modelled from the
spec: the standard spherical (`a = b`) LCC forward and inverse formulas with
two standard parallels `phi1 < phi2`, origin `(phi0, lam0)` and sphere radius
`R`, all angles in radians. -/

/-- The auxiliary LCC quantity `t(φ) = tan(π/4 + φ/2)`. -/
noncomputable def lccT (phi : ℝ) : ℝ := Real.tan (Real.pi / 4 + phi / 2)

/-- The LCC cone constant `n`, determined by the two standard parallels. -/
noncomputable def lccN (phi1 phi2 : ℝ) : ℝ :=
  Real.log (Real.cos phi1 / Real.cos phi2) / Real.log (lccT phi2 / lccT phi1)

/-- The LCC scaling constant `F = cos(φ1) · t(φ1)^n / n`. -/
noncomputable def lccF (phi1 phi2 : ℝ) : ℝ :=
  Real.cos phi1 * lccT phi1 ^ lccN phi1 phi2 / lccN phi1 phi2

/-- The LCC radius `ρ(φ) = R · F / t(φ)^n` of the parallel `φ`. -/
noncomputable def lccRho (phi1 phi2 R phi : ℝ) : ℝ :=
  R * lccF phi1 phi2 / lccT phi ^ lccN phi1 phi2

/-- The forward spherical LCC projection:
`x = ρ(φ) sin(n(λ − λ0))`, `y = ρ(φ0) − ρ(φ) cos(n(λ − λ0))`. -/
noncomputable def lccForward (phi1 phi2 phi0 lam0 R phi lam : ℝ) : ℝ × ℝ :=
  (lccRho phi1 phi2 R phi * Real.sin (lccN phi1 phi2 * (lam - lam0)),
   lccRho phi1 phi2 R phi0 - lccRho phi1 phi2 R phi * Real.cos (lccN phi1 phi2 * (lam - lam0)))

/-- The inverse spherical LCC projection:
`ρ = √(x² + (ρ0 − y)²)`, `θ = arctan(x / (ρ0 − y))`,
`φ = 2 arctan((R F / ρ)^(1/n)) − π/2`, `λ = λ0 + θ/n`. -/
noncomputable def lccInverse (phi1 phi2 phi0 lam0 R : ℝ) (p : ℝ × ℝ) : ℝ × ℝ :=
  (2 * Real.arctan ((R * lccF phi1 phi2 /
      Real.sqrt (p.1 ^ 2 + (lccRho phi1 phi2 R phi0 - p.2) ^ 2)) ^ (1 / lccN phi1 phi2))
    - Real.pi / 2,
   lam0 + Real.arctan (p.1 / (lccRho phi1 phi2 R phi0 - p.2)) / lccN phi1 phi2)

end Tornado

namespace Tornado

/-- C1 helper: the sigmoid is strictly monotone. -/
theorem sigmoid_strictMono : StrictMono sigmoid := by
  intro a b hab
  unfold sigmoid
  have ha : (0 : ℝ) < 1 + Real.exp (-a) := by positivity
  have hb : (0 : ℝ) < 1 + Real.exp (-b) := by positivity
  rw [one_div_lt_one_div ha hb]
  have : Real.exp (-b) < Real.exp (-a) := Real.exp_lt_exp.mpr (by linarith)
  linarith

/-- C1 helper: the sigmoid is strictly positive. -/
theorem sigmoid_pos (z : ℝ) : 0 < sigmoid z := by
  unfold sigmoid
  positivity

/-- C1 helper: the sigmoid is strictly below one. -/
theorem sigmoid_lt_one (z : ℝ) : sigmoid z < 1 := by
  unfold sigmoid
  rw [div_lt_one (by positivity)]
  have := Real.exp_pos (-z)
  linarith

theorem linear_big : linear (10 ^ 8) 0 0 = 288578.37 := by
  unfold linear INTERCEPT COEFFS_CAPE COEFFS_CIN COEFFS_HLCY
  norm_num

/-- C1 (counterexample): the claim states that the probability computation
clamps the linear argument to `[-60, 60]` before exponentiation.  The code
computes `prob = 1 / (1 + np.exp(-linear))` with no clamp: at
`CAPE = 10^8, CIN = 0, HLCY = 0` the linear argument is `288578.37`, and the
unclamped probability differs from the clamped one. -/
theorem C1_no_clamp_counterexample : prob (10 ^ 8) 0 0 ≠ prob_spec_clamped (10 ^ 8) 0 0 := by
  unfold prob prob_spec_clamped
  rw [linear_big]
  have hc : clamp60 (288578.37 : ℝ) = 60 := by
    unfold clamp60
    rw [min_eq_left (by norm_num), max_eq_right (by norm_num)]
  rw [hc]
  exact ne_of_gt (sigmoid_strictMono (by norm_num))

/-- C1 (amended): the code applies no clamping to the linear argument
(`prob = sigmoid (linear ...)` directly); nevertheless, in exact real
arithmetic, for every finite triple of field values the resulting probability
is strictly between 0 and 1. -/
theorem C1_sigmoid_bounded (cape cin hlcy : ℝ) :
    prob cape cin hlcy = sigmoid (linear cape cin hlcy) ∧
    0 < prob cape cin hlcy ∧ prob cape cin hlcy < 1 :=
  ⟨rfl, sigmoid_pos _, sigmoid_lt_one _⟩

/-- C5: a NaN value (modelled as `none`) among the CAPE, CIN or helicity
inputs is replaced by 0 before the logistic computation, and the resulting
probability is always a real number strictly between 0 and 1 (in particular it
is never NaN). -/
theorem C5_nan_to_num_policy (cape cin hlcy : Option ℝ) :
    probFromRaw none cin hlcy = probFromRaw (some 0) cin hlcy ∧
    probFromRaw cape none hlcy = probFromRaw cape (some 0) hlcy ∧
    probFromRaw cape cin none = probFromRaw cape cin (some 0) ∧
    0 < probFromRaw cape cin hlcy ∧ probFromRaw cape cin hlcy < 1 :=
  ⟨rfl, rfl, rfl, sigmoid_pos _, sigmoid_lt_one _⟩

/-- C6: if the availability check for the upstream RAP source does not observe
HTTP status 200, the run terminates with exit status 0 and writes no file: a
clean early exit, the same exit status as a successful run. -/
theorem C6_not_ready_clean_exit {α : Type} (status_code : ℕ) (pipeline : Unit → α)
    (h : status_code ≠ 200) : runScript status_code pipeline = (0, []) := by
  unfold runScript url_exists
  simp [h]

theorem C6_not_ready_clean_exit_witness :
    (404 ≠ 200) ∧ runScript 404 (fun _ => (0 : ℕ)) = (0, []) :=
  ⟨by decide, C6_not_ready_clean_exit 404 (fun _ => (0 : ℕ)) (by decide)⟩

/-- Characterization of membership in the output of the filtering loop. -/
theorem mem_processCells {rows cols : ℕ} {xv yv pr : ℕ → ℕ → ℚ}
    {keep : ℚ → ℚ → Bool} {f : Feature} :
    f ∈ processCells rows cols xv yv pr keep ↔
      ∃ i, i < rows ∧ ∃ j, j < cols ∧
        keep ((featureAt rows cols xv yv pr i j).x + (featureAt rows cols xv yv pr i j).dx / 2)
          ((featureAt rows cols xv yv pr i j).y + (featureAt rows cols xv yv pr i j).dy / 2) = true ∧
        f = featureAt rows cols xv yv pr i j := by
  unfold processCells
  simp only [List.mem_flatMap, List.mem_filterMap, List.mem_range]
  constructor
  · rintro ⟨i, hi, j, hj, hsome⟩
    refine ⟨i, hi, j, hj, ?_⟩
    split at hsome
    · rename_i hk
      cases hsome
      exact ⟨hk, rfl⟩
    · exact absurd hsome (by simp)
  · rintro ⟨i, hi, j, hj, hk, rfl⟩
    exact ⟨i, hi, j, hj, by rw [if_pos hk]⟩

/-- C3: every feature emitted by the filtering loop of `process_rap.py` comes
from a grid point `(i, j)` and carries
`dx = |x[i,j+1] - x[i,j]|` when `j < cols - 1` and `dx = |x[i,j] - x[i,j-1]|`
at the last column, and symmetrically
`dy = |y[i+1,j] - y[i,j]|` when `i < rows - 1` and `dy = |y[i,j] - y[i-1,j]|`
at the last row. -/
theorem C3_cell_extent_formulas (rows cols : ℕ) (xv yv pr : ℕ → ℕ → ℚ)
    (keep : ℚ → ℚ → Bool) (hrows : 2 ≤ rows) (hcols : 2 ≤ cols) :
    ∀ f ∈ processCells rows cols xv yv pr keep, ∃ i j, i < rows ∧ j < cols ∧
      f.x = xv i j ∧ f.y = yv i j ∧
      f.dx = (if j < cols - 1 then |xv i (j + 1) - xv i j| else |xv i j - xv i (j - 1)|) ∧
      f.dy = (if i < rows - 1 then |yv (i + 1) j - yv i j| else |yv i j - yv (i - 1) j|) := by
  intro f hf
  obtain ⟨i, hi, j, hj, hk, rfl⟩ := mem_processCells.mp hf
  refine ⟨i, j, hi, hj, rfl, rfl, ?_, ?_⟩
  · show |if j < cols - 1 then xv i (j + 1) - xv i j else xv i j - xv i (j - 1)| = _
    split_ifs <;> rfl
  · show |if i < rows - 1 then yv (i + 1) j - yv i j else yv i j - yv (i - 1) j| = _
    split_ifs <;> rfl

theorem C3_cell_extent_formulas_witness :
    ∃ i j, i < 2 ∧ j < 2 ∧
      (featureAt 2 2 colIndexQ rowIndexQ zeroField 0 0).x = colIndexQ i j ∧
      (featureAt 2 2 colIndexQ rowIndexQ zeroField 0 0).y = rowIndexQ i j ∧
      (featureAt 2 2 colIndexQ rowIndexQ zeroField 0 0).dx =
        (if j < 2 - 1 then |colIndexQ i (j + 1) - colIndexQ i j|
         else |colIndexQ i j - colIndexQ i (j - 1)|) ∧
      (featureAt 2 2 colIndexQ rowIndexQ zeroField 0 0).dy =
        (if i < 2 - 1 then |rowIndexQ (i + 1) j - rowIndexQ i j|
         else |rowIndexQ i j - rowIndexQ (i - 1) j|) :=
  C3_cell_extent_formulas 2 2 colIndexQ rowIndexQ zeroField keepAll
    (by norm_num) (by norm_num) _ (by with_unfolding_all decide)

/-- C4 (counterexample): the claim's own definition of a non-degenerate grid
(adjacent x within a row distinct, adjacent y within a column distinct) is
vacuously satisfied by a 3×1 grid, yet the loop emits cells with `dx = 0`
there, because with a single column the one-sided fallback difference is
`x[i,0] - x[i,0]`. -/
theorem C4_counterexample :
    adjacentXDistinct 3 1 colIndexQ = true ∧
    adjacentYDistinct 3 1 rowIndexQ = true ∧
    (processCells 3 1 colIndexQ rowIndexQ zeroField keepAll).any
      (fun f => decide (f.dx = 0)) = true := by
  with_unfolding_all decide

/-- C4 (amended): for every grid with at least two rows and two columns in
which adjacent projected x coordinates within a row are distinct and adjacent
projected y coordinates within a column are distinct, every emitted cell has
`dx > 0` and `dy > 0`: the one-sided fallback difference at the last column
and last row is itself an adjacent difference, hence nonzero. -/
theorem C4_positive_extents (rows cols : ℕ) (xv yv pr : ℕ → ℕ → ℚ)
    (keep : ℚ → ℚ → Bool) (hrows : 2 ≤ rows) (hcols : 2 ≤ cols)
    (hx : adjacentXDistinct rows cols xv = true)
    (hy : adjacentYDistinct rows cols yv = true) :
    ∀ f ∈ processCells rows cols xv yv pr keep, 0 < f.dx ∧ 0 < f.dy := by
  have hx' : ∀ i' j', i' < rows → j' < cols - 1 → xv i' (j' + 1) ≠ xv i' j' := by
    intro i' j' hi' hj'
    simp only [adjacentXDistinct, List.all_eq_true, List.mem_range] at hx
    exact bne_iff_ne.mp (hx i' hi' j' hj')
  have hy' : ∀ i' j', i' < rows - 1 → j' < cols → yv (i' + 1) j' ≠ yv i' j' := by
    intro i' j' hi' hj'
    simp only [adjacentYDistinct, List.all_eq_true, List.mem_range] at hy
    exact bne_iff_ne.mp (hy j' hj' i' hi')
  intro f hf
  obtain ⟨i, hi, j, hj, hk, rfl⟩ := mem_processCells.mp hf
  constructor
  · show 0 < |if j < cols - 1 then xv i (j + 1) - xv i j else xv i j - xv i (j - 1)|
    split_ifs with h
    · exact abs_pos.mpr (sub_ne_zero_of_ne (hx' i j hi h))
    · have h1 : 1 ≤ j := by omega
      have hjj : j - 1 + 1 = j := by omega
      have := hx' i (j - 1) hi (by omega)
      rw [hjj] at this
      exact abs_pos.mpr (sub_ne_zero_of_ne this)
  · show 0 < |if i < rows - 1 then yv (i + 1) j - yv i j else yv i j - yv (i - 1) j|
    split_ifs with h
    · exact abs_pos.mpr (sub_ne_zero_of_ne (hy' i j h hj))
    · have h1 : 1 ≤ i := by omega
      have hii : i - 1 + 1 = i := by omega
      have := hy' (i - 1) j (by omega) hj
      rw [hii] at this
      exact abs_pos.mpr (sub_ne_zero_of_ne this)

theorem C4_positive_extents_witness :
    0 < (featureAt 2 2 colIndexQ rowIndexQ zeroField 0 0).dx ∧
    0 < (featureAt 2 2 colIndexQ rowIndexQ zeroField 0 0).dy :=
  C4_positive_extents 2 2 colIndexQ rowIndexQ zeroField keepAll
    (by norm_num) (by norm_num)
    (by with_unfolding_all decide) (by with_unfolding_all decide)
    _ (by with_unfolding_all decide)

/-- C2 (counterexample): for a square region so large that every cell of a
regular 2×2 grid lies strictly inside it, the strict-containment policy and
the intersection policy keep exactly the same (non-empty) set of cells, so the
former is not a strict subset of the latter. -/
theorem C2_counterexample :
    keptCells strictPolicy hugeSquare tinyGrid = keptCells intersectPolicy hugeSquare tinyGrid ∧
    keptCells strictPolicy hugeSquare tinyGrid = tinyGrid := by
  with_unfolding_all decide

/-- C2 (amended): for every square region, every cell with nonnegative extents
kept by the strict-containment policy (centroid strictly inside the region) is
also kept by the intersection policy (cell box meets the region), so the
strict result set is always a subset of the intersection result set; on the
square test region and regular 3×3 grid of spec section 8 the inclusion is
strict (1 cell versus 9). -/
theorem C2_policy_subset :
    (∀ (s : Box) (f : Feature), 0 ≤ f.dx → 0 ≤ f.dy →
        strictPolicy s f = true → intersectPolicy s f = true) ∧
    (∀ f ∈ keptCells strictPolicy specSquare specGrid,
        f ∈ keptCells intersectPolicy specSquare specGrid) ∧
    (keptCells strictPolicy specSquare specGrid).length = 1 ∧
    (keptCells intersectPolicy specSquare specGrid).length = 9 := by
  refine ⟨?_, by with_unfolding_all decide, by with_unfolding_all decide,
    by with_unfolding_all decide⟩
  intro s f hdx hdy hs
  unfold strictPolicy containsPt at hs
  unfold intersectPolicy boxIntersects featureBox
  simp only [Bool.and_eq_true, decide_eq_true_eq] at hs ⊢
  obtain ⟨⟨⟨h1, h2⟩, h3⟩, h4⟩ := hs
  exact ⟨⟨⟨by linarith, by linarith⟩, by linarith⟩, by linarith⟩

theorem C2_policy_subset_witness :
    intersectPolicy hugeSquare ⟨0, 0, 1, 1, 0⟩ = true :=
  C2_policy_subset.1 hugeSquare ⟨0, 0, 1, 1, 0⟩
    (by norm_num) (by norm_num) (by with_unfolding_all decide)

/-- The append-accumulator loop of `filter_cells` is `List.filter`. -/
theorem foldl_filter_append {G : Type} (intersects : Box → G → Bool) (g : G)
    (cells : List Cell) :
    ∀ acc : List Cell,
      cells.foldl
        (fun filtered c =>
          if intersects (cellBox c) g then filtered ++ [c] else filtered)
        acc
        = acc ++ cells.filter (fun c => intersects (cellBox c) g) := by
  induction cells with
  | nil => intro acc; simp
  | cons c rest ih =>
    intro acc
    by_cases hc : intersects (cellBox c) g = true <;>
      simp [List.filter_cons, hc, ih]

/-- C9: `filter_cells` returns exactly the input cells whose box from
`(x, y)` to `(x + dx, y + dy)` intersects the geometry, in input order and
with every kept cell unchanged, where `dx` and `dy` default to 13545 when the
record lacks the key. -/
theorem C9_filter_cells_is_filter {G : Type} (intersects : Box → G → Bool)
    (cells : List Cell) (us_geom : G) :
    filter_cells intersects cells us_geom =
      cells.filter fun c =>
        intersects ⟨c.x, c.y, c.x + (c.dx.getD 13545), c.y + (c.dy.getD 13545)⟩ us_geom := by
  unfold filter_cells
  rw [foldl_filter_append]
  simp only [List.nil_append]
  rfl

/-- C7 (counterexample): on the self-intersecting bowtie ring the spec-modelled
filter fails with a `GeometryError`, but the code's `filter_cells` runs
normally and returns a filtered list, so the two disagree. -/
theorem C7_counterexample :
    ringSelfIntersects bowtieRing = true ∧
    filter_cells alwaysIntersects [sampleCell] bowtieRing = [sampleCell] ∧
    Except.ok (filter_cells alwaysIntersects [sampleCell] bowtieRing) ≠
      filter_cells_spec alwaysIntersects [sampleCell] bowtieRing := by
  refine ⟨?_, ?_, ?_⟩
  · with_unfolding_all decide
  · with_unfolding_all decide
  · intro h
    rw [filter_cells_spec, if_pos (by with_unfolding_all decide)] at h
    exact Except.noConfusion h

/-- C7 (amended): the region membership filter performs no validity check: for
every geometrically invalid region ring (self-intersecting) it does not fail
but returns the ordinary filtered list; no `GeometryError` is raised anywhere
in the code. -/
theorem C7_no_geometry_error (intersects : Box → RingGeom → Bool)
    (cells : List Cell) (ring : RingGeom)
    (hinvalid : ringSelfIntersects ring = true) :
    filter_cells intersects cells ring =
      cells.filter (fun c => intersects (cellBox c) ring) := by
  unfold filter_cells
  rw [foldl_filter_append]
  simp

theorem C7_no_geometry_error_witness :
    filter_cells alwaysIntersects [sampleCell] bowtieRing =
      [sampleCell].filter (fun c => alwaysIntersects (cellBox c) bowtieRing) :=
  C7_no_geometry_error alwaysIntersects [sampleCell] bowtieRing
    (by with_unfolding_all decide)

/-- Bounds of the closest-cell scan: the final best distance never exceeds the
starting one, nor the distance of any scanned cell. -/
theorem closest_foldl_le (px py : ℚ) (l : List (ℕ × Cell)) :
    ∀ acc : Option ℕ × ℚ,
      (l.foldl (closestStep px py) acc).2 ≤ acc.2 ∧
      ∀ p ∈ l, (l.foldl (closestStep px py) acc).2 ≤ sqDist p.2 px py := by
  induction l with
  | nil => exact fun acc => ⟨le_refl _, by simp⟩
  | cons p rest ih =>
    intro acc
    rw [List.foldl_cons]
    obtain ⟨h1, h2⟩ := ih (closestStep px py acc p)
    have hstep : (closestStep px py acc p).2 ≤ acc.2 ∧
        (closestStep px py acc p).2 ≤ sqDist p.2 px py := by
      unfold closestStep
      split_ifs with h
      · exact ⟨le_of_lt h, le_refl _⟩
      · exact ⟨le_refl _, le_of_not_lt h⟩
    refine ⟨le_trans h1 hstep.1, ?_⟩
    intro q hq
    rcases List.mem_cons.mp hq with hqp | hq'
    · rw [hqp] at *
      exact le_trans h1 hstep.2
    · exact h2 q hq'

/-- The closest-cell scan either leaves the accumulator untouched or returns
the index and squared distance of one of the scanned cells. -/
theorem closest_foldl_cases (px py : ℚ) (l : List (ℕ × Cell)) :
    ∀ acc : Option ℕ × ℚ,
      l.foldl (closestStep px py) acc = acc ∨
      ∃ p ∈ l, l.foldl (closestStep px py) acc = (some p.1, sqDist p.2 px py) := by
  induction l with
  | nil => exact fun acc => Or.inl rfl
  | cons p rest ih =>
    intro acc
    rw [List.foldl_cons]
    rcases ih (closestStep px py acc p) with h | ⟨q, hq, h⟩
    · rw [h]
      unfold closestStep
      split_ifs with hlt
      · exact Or.inr ⟨p, List.mem_cons_self p rest, rfl⟩
      · exact Or.inl rfl
    · exact Or.inr ⟨q, List.mem_cons_of_mem p hq, h⟩

/-- Index lookup after setting `highlight = True` at one position. -/
theorem getElem?_setHighlightTrue (i j : ℕ) (l : List Cell) :
    (setHighlightTrue i l)[j]? =
      if j = i then (l[j]?).map (fun c => { c with highlight := some true })
      else l[j]? := by
  induction l generalizing i j with
  | nil => simp [setHighlightTrue]
  | cons c rest ih =>
    cases i with
    | zero =>
      cases j with
      | zero => simp [setHighlightTrue]
      | succ m => simp [setHighlightTrue]
    | succ n =>
      cases j with
      | zero => simp [setHighlightTrue]
      | succ m => simp [setHighlightTrue, ih n m]

/-- C10 (amended): when at least one cell's squared box-center distance to the
projected Dallas point is below the scan's starting threshold `1e30`, some
index `i` of the input holds a cell minimizing the squared center distance,
the output cell at `i` is the input cell with `highlight = True`, and every
other output cell is its input cell with `highlight = False`: exactly one cell
is highlighted and no other field of any cell changes. -/
theorem C10_highlight_dallas (px py : ℚ) (cells : List Cell)
    (hclose : ∃ c ∈ cells, sqDist c px py < 10 ^ 30) :
    ∃ (i : ℕ) (ci : Cell), cells[i]? = some ci ∧
      (∀ (j : ℕ) (cj : Cell), cells[j]? = some cj → sqDist ci px py ≤ sqDist cj px py) ∧
      (highlight_dallas px py cells)[i]? = some { ci with highlight := some true } ∧
      (∀ j, j ≠ i → (highlight_dallas px py cells)[j]? =
        (cells[j]?).map fun c => { c with highlight := some false }) := by
  obtain ⟨c0, hc0mem, hc0⟩ := hclose
  obtain ⟨i0, hi0⟩ := List.mem_iff_getElem?.mp hc0mem
  have hc0enum : (i0, c0) ∈ cells.enum := List.mem_enum_iff_getElem?.mpr hi0
  obtain ⟨hle_init, hle_all⟩ :=
    closest_foldl_le px py cells.enum ((none : Option ℕ), (10 : ℚ) ^ 30)
  have hlt : (cells.enum.foldl (closestStep px py) (none, 10 ^ 30)).2 < 10 ^ 30 :=
    lt_of_le_of_lt (hle_all (i0, c0) hc0enum) hc0
  rcases closest_foldl_cases px py cells.enum ((none : Option ℕ), (10 : ℚ) ^ 30)
    with h | ⟨p, hp, h⟩
  · rw [h] at hlt
    exact absurd hlt (lt_irrefl _)
  · refine ⟨p.1, p.2, ?_, ?_, ?_, ?_⟩
    · exact List.mem_enum_iff_getElem?.mp hp
    · intro j cj hj
      have := hle_all (j, cj) (List.mem_enum_iff_getElem?.mpr hj)
      rw [h] at this
      exact this
    · have hR1 : (findClosest px py cells).1 = some p.1 := by
        unfold findClosest
        rw [h]
      show (highlight_dallas px py cells)[p.1]? = _
      unfold highlight_dallas
      rw [hR1]
      rw [getElem?_setHighlightTrue, if_pos rfl, List.getElem?_map,
        List.mem_enum_iff_getElem?.mp hp]
      rfl
    · intro j hj
      have hR1 : (findClosest px py cells).1 = some p.1 := by
        unfold findClosest
        rw [h]
      unfold highlight_dallas
      rw [hR1]
      rw [getElem?_setHighlightTrue, if_neg hj, List.getElem?_map]

theorem C10_highlight_dallas_witness :
    ∃ (i : ℕ) (ci : Cell), ([sampleCell])[i]? = some ci ∧
      (∀ (j : ℕ) (cj : Cell), ([sampleCell])[j]? = some cj → sqDist ci 0 0 ≤ sqDist cj 0 0) ∧
      (highlight_dallas 0 0 [sampleCell])[i]? = some { ci with highlight := some true } ∧
      (∀ j, j ≠ i → (highlight_dallas 0 0 [sampleCell])[j]? =
        (([sampleCell])[j]?).map fun c => { c with highlight := some false }) :=
  C10_highlight_dallas 0 0 [sampleCell]
    ⟨sampleCell, by simp, by norm_num [sqDist, cellCx, cellCy, sampleCell]⟩

/-- C10 (counterexample): for a non-empty cell list whose only cell lies so
far away that its squared center distance reaches the scan's starting
threshold `1e30`, the scan finds no winner and `highlight_dallas` sets
`highlight = False` on every cell: no cell at all is highlighted. -/
theorem C10_counterexample :
    highlight_dallas 0 0 [farCell] = [{ farCell with highlight := some false }] ∧
    ((highlight_dallas 0 0 [farCell]).countP fun c => decide (c.highlight = some true)) = 0 := by
  have hfar : ¬ sqDist farCell 0 0 < 10 ^ 30 := by
    norm_num [sqDist, cellCx, cellCy, farCell]
  have he : ([farCell]).enum = [(0, farCell)] := rfl
  have h0 : findClosest 0 0 [farCell] = (none, 10 ^ 30) := by
    unfold findClosest
    rw [he, List.foldl_cons, List.foldl_nil]
    simp [closestStep, hfar]
  have h1 : highlight_dallas 0 0 [farCell] = [{ farCell with highlight := some false }] := by
    unfold highlight_dallas
    rw [h0]
    rfl
  refine ⟨h1, ?_⟩
  rw [h1]
  rfl

/-- For latitudes strictly between the poles, `t(φ) = tan(π/4 + φ/2)` is
positive. -/
theorem lccT_pos (phi : ℝ) (h1 : -(Real.pi / 2) < phi) (h2 : phi < Real.pi / 2) :
    0 < lccT phi :=
  Real.tan_pos_of_pos_of_lt_pi_div_two (by linarith) (by linarith)

/-- For standard parallels `0 < φ1 < φ2 < π/2` the cone constant is
positive. -/
theorem lccN_pos (phi1 phi2 : ℝ) (h1 : 0 < phi1) (h12 : phi1 < phi2)
    (h2 : phi2 < Real.pi / 2) : 0 < lccN phi1 phi2 := by
  have hpi := Real.pi_pos
  have hc2 : 0 < Real.cos phi2 := Real.cos_pos_of_mem_Ioo ⟨by linarith, h2⟩
  have hclt : Real.cos phi2 < Real.cos phi1 :=
    Real.cos_lt_cos_of_nonneg_of_le_pi (le_of_lt h1) (by linarith) h12
  have ht1 : 0 < lccT phi1 := lccT_pos phi1 (by linarith) (by linarith)
  have htlt : lccT phi1 < lccT phi2 :=
    Real.tan_lt_tan_of_nonneg_of_lt_pi_div_two (by linarith) (by linarith) (by linarith)
  exact div_pos (Real.log_pos ((one_lt_div hc2).mpr hclt))
    (Real.log_pos ((one_lt_div ht1).mpr htlt))

/-- For standard parallels `0 < φ1 < φ2 < π/2` the scaling constant `F` is
positive. -/
theorem lccF_pos (phi1 phi2 : ℝ) (h1 : 0 < phi1) (h12 : phi1 < phi2)
    (h2 : phi2 < Real.pi / 2) : 0 < lccF phi1 phi2 := by
  have hpi := Real.pi_pos
  have hc1 : 0 < Real.cos phi1 := Real.cos_pos_of_mem_Ioo ⟨by linarith, by linarith⟩
  have ht1 : 0 < lccT phi1 := lccT_pos phi1 (by linarith) (by linarith)
  exact div_pos (mul_pos hc1 (Real.rpow_pos_of_pos ht1 _)) (lccN_pos phi1 phi2 h1 h12 h2)

/-- For valid parameters and a latitude strictly between the poles, the
parallel radius `ρ(φ)` is positive. -/
theorem lccRho_pos (phi1 phi2 R phi : ℝ) (h1 : 0 < phi1) (h12 : phi1 < phi2)
    (h2 : phi2 < Real.pi / 2) (hR : 0 < R)
    (hphi1 : -(Real.pi / 2) < phi) (hphi2 : phi < Real.pi / 2) :
    0 < lccRho phi1 phi2 R phi :=
  div_pos (mul_pos hR (lccF_pos phi1 phi2 h1 h12 h2))
    (Real.rpow_pos_of_pos (lccT_pos phi hphi1 hphi2) _)

/-- C8: for valid spherical LCC parameters (standard parallels
`0 < φ1 < φ2 < π/2`, any origin, positive radius) and any point with latitude
strictly between the poles and longitude in the principal branch of the cone
angle, projecting forward and then inverse-projecting returns exactly the
original `(lat, lon)` in exact real arithmetic — in particular within any
floating-point tolerance. -/
theorem C8_lcc_roundtrip (phi1 phi2 phi0 lam0 R phi lam : ℝ)
    (h1 : 0 < phi1) (h12 : phi1 < phi2) (h2 : phi2 < Real.pi / 2) (hR : 0 < R)
    (hphi1 : -(Real.pi / 2) < phi) (hphi2 : phi < Real.pi / 2)
    (hlam : |lccN phi1 phi2 * (lam - lam0)| < Real.pi / 2) :
    lccInverse phi1 phi2 phi0 lam0 R (lccForward phi1 phi2 phi0 lam0 R phi lam)
      = (phi, lam) := by
  have hpi := Real.pi_pos
  have hnpos : 0 < lccN phi1 phi2 := lccN_pos phi1 phi2 h1 h12 h2
  have htpos : 0 < lccT phi := lccT_pos phi hphi1 hphi2
  have hrho : 0 < lccRho phi1 phi2 R phi :=
    lccRho_pos phi1 phi2 R phi h1 h12 h2 hR hphi1 hphi2
  have hth1 : -(Real.pi / 2) < lccN phi1 phi2 * (lam - lam0) := (abs_lt.mp hlam).1
  have hth2 : lccN phi1 phi2 * (lam - lam0) < Real.pi / 2 := (abs_lt.mp hlam).2
  have hcos : 0 < Real.cos (lccN phi1 phi2 * (lam - lam0)) :=
    Real.cos_pos_of_mem_Ioo ⟨hth1, hth2⟩
  unfold lccInverse lccForward
  have hy : lccRho phi1 phi2 R phi0 -
      (lccRho phi1 phi2 R phi0 -
        lccRho phi1 phi2 R phi * Real.cos (lccN phi1 phi2 * (lam - lam0)))
      = lccRho phi1 phi2 R phi * Real.cos (lccN phi1 phi2 * (lam - lam0)) := by
    ring
  rw [Prod.mk.injEq]
  dsimp only
  rw [hy]
  have hsq : (lccRho phi1 phi2 R phi * Real.sin (lccN phi1 phi2 * (lam - lam0))) ^ 2 +
      (lccRho phi1 phi2 R phi * Real.cos (lccN phi1 phi2 * (lam - lam0))) ^ 2
      = lccRho phi1 phi2 R phi ^ 2 := by
    have hsc := Real.sin_sq_add_cos_sq (lccN phi1 phi2 * (lam - lam0))
    nlinarith [hsc]
  rw [hsq, Real.sqrt_sq (le_of_lt hrho)]
  constructor
  · have hratio : R * lccF phi1 phi2 / lccRho phi1 phi2 R phi
        = lccT phi ^ lccN phi1 phi2 := by
      unfold lccRho
      rw [div_div_eq_mul_div, mul_comm]
      rw [mul_div_assoc]
      rw [div_self (ne_of_gt (mul_pos hR (lccF_pos phi1 phi2 h1 h12 h2))), mul_one]
    rw [hratio, ← Real.rpow_mul (le_of_lt htpos),
      mul_one_div_cancel (ne_of_gt hnpos), Real.rpow_one]
    unfold lccT
    rw [Real.arctan_tan (by linarith) (by linarith)]
    ring
  · rw [mul_div_mul_left _ _ (ne_of_gt hrho), ← Real.tan_eq_sin_div_cos,
      Real.arctan_tan hth1 hth2, mul_comm,
      mul_div_assoc, div_self (ne_of_gt hnpos), mul_one]
    ring

theorem C8_lcc_roundtrip_witness :
    lccInverse (Real.pi / 6) (Real.pi / 3) (Real.pi / 4) 0 6371229
        (lccForward (Real.pi / 6) (Real.pi / 3) (Real.pi / 4) 0 6371229 (Real.pi / 4) 0)
      = (Real.pi / 4, 0) := by
  have hpi := Real.pi_pos
  exact C8_lcc_roundtrip (Real.pi / 6) (Real.pi / 3) (Real.pi / 4) 0 6371229 (Real.pi / 4) 0
    (by linarith) (by linarith) (by linarith) (by norm_num)
    (by linarith) (by linarith)
    (by rw [sub_zero, mul_zero, abs_zero]; linarith)

end Tornado
